import Mathlib

/-!
Verification of the faibric generation-validation-deployment pipeline.

The definitions below are shallow embeddings of the pipeline code:

* `needs_backend`, `orchestratorTier`, `orchestratorActions` embed
  `DeploymentOrchestrator._needs_backend` / `deploy` and the two deployers
  from `FAIBRIC_V2_REDESIGN.md` (Phase 3, Tiered Deployment System);
* `dockerDeploy`, `staticUpdate` embed `DockerDeployer.deploy` and
  `StaticDeployer.update` with the external docker effects passed in as
  explicit `Except` results;
* `mergeEvents` embeds the event-merge inside `pollStatus` of
  `frontend/src/components/BuildingStudio.tsx`;
* `displayedProgress` embeds the progress heuristic of the second
  `pollStatus` variant in the same file;
* `componentScore` and `findSimilarScored` embed
  `CodeSearchEngine.find_reusable_components` / `find_similar_templates`;
* parts of the backend that are only described in the repository's design
  documents (the auto-fix retry loop, the `modify` endpoint, the content
  classifier, the reuse-acceptance decision) are modelled from the spec and
  are marked as such in their doc comments.
-/

namespace Faibric

/-- Declared capability analysis attached to a project (`project.ai_analysis`
in `FAIBRIC_V2_REDESIGN.md`): the `requires_backend` flag, the list of
database `models`, and the list of declared `api_endpoints`. -/
structure Analysis where
  requires_backend : Bool
  models : List String
  api_endpoints : List String
deriving DecidableEq

/-- The empty analysis, the value of `project.ai_analysis or ` empty-dict
when `ai_analysis` is null. -/
def emptyAnalysis : Analysis := ⟨false, [], []⟩

/-- A project row as the deployment code sees it. -/
structure Project where
  id : Nat
  subdomain : String
  ai_analysis : Option Analysis
deriving DecidableEq

/-- `DeploymentOrchestrator._needs_backend` from `FAIBRIC_V2_REDESIGN.md`:
backend is needed when `requires_backend` is set, or there is at least one
database model, or at least one declared API endpoint. -/
def needs_backend (project : Project) : Bool :=
  let analysis := project.ai_analysis.getD emptyAnalysis
  if analysis.requires_backend then true
  else if !analysis.models.isEmpty then true
  else if !analysis.api_endpoints.isEmpty then true
  else false

/-- The two deployment tiers. -/
inductive Tier
  | static
  | containerized
deriving DecidableEq

/-- The externally visible steps a deployer performs. -/
inductive DeployAction
  | writeAppFiles
  | buildImage
  | runContainer
deriving DecidableEq

/-- `StaticDeployer.deploy`: write the files to the shared volume and start a
container from the pre-built base image; there is no image build step. -/
def staticDeployActions (_project : Project) : List DeployAction :=
  [DeployAction.writeAppFiles, DeployAction.runContainer]

/-- `DockerDeployer.deploy`: build the image, then run it. -/
def dockerDeployActions (_project : Project) : List DeployAction :=
  [DeployAction.buildImage, DeployAction.runContainer]

/-- Tier choice of `DeploymentOrchestrator.deploy`. -/
def orchestratorTier (project : Project) : Tier :=
  if needs_backend project then Tier.containerized else Tier.static

/-- Steps performed by `DeploymentOrchestrator.deploy` for a project. -/
def orchestratorActions (project : Project) : List DeployAction :=
  if needs_backend project then dockerDeployActions project
  else staticDeployActions project

/-- The live hosting state of one project: the served files, the running
container (if any), and the allocated address. -/
structure DeployState where
  files : List (String × String)
  container : Option String
  address : String
deriving DecidableEq

/-- `DockerDeployer.deploy` as a state transformer. The docker build and run
calls are external effects, so their outcomes are explicit inputs; the code
builds the image first and only touches the running state after a successful
`containers.run`. -/
def dockerDeploy (st : DeployState) (buildResult : Except String String)
    (runResult : String → Except String String) :
    DeployState × Except String String :=
  match buildResult with
  | Except.error e => (st, Except.error e)
  | Except.ok image =>
    match runResult image with
    | Except.error e => (st, Except.error e)
    | Except.ok c =>
      ({ st with container := some c }, Except.ok ("http://" ++ st.address))

/-- Overwrite one served file (in-place write of `StaticDeployer.update`). -/
def overwriteFile (files : List (String × String)) (name content : String) :
    List (String × String) :=
  if files.any (fun f => f.1 == name) then
    files.map (fun f => if f.1 == name then (name, content) else f)
  else files ++ [(name, content)]

/-- `StaticDeployer.update`: write each changed file into the served
directory and report success; the container hot-reloads, no rebuild. -/
def staticUpdate (st : DeployState) (changes : List (String × String)) :
    DeployState × Bool :=
  (⟨changes.foldl (fun fs nc => overwriteFile fs nc.1 nc.2) st.files,
    st.container, st.address⟩, true)

/-- Claim C3: the Deployment Orchestrator selects the containerized tier iff
the declared requirements include a backend flag, a database model, or an
API endpoint; otherwise it selects the static tier, whose step list contains
no image build. -/
theorem orchestrator_tier_selection (project : Project) :
    (orchestratorTier project = Tier.containerized ↔
      ((project.ai_analysis.getD emptyAnalysis).requires_backend = true ∨
       (project.ai_analysis.getD emptyAnalysis).models ≠ [] ∨
       (project.ai_analysis.getD emptyAnalysis).api_endpoints ≠ [])) ∧
    (orchestratorTier project = Tier.static →
      DeployAction.buildImage ∉ orchestratorActions project) := by
  constructor
  · unfold orchestratorTier needs_backend
    rcases project.ai_analysis.getD emptyAnalysis with ⟨rb, ms, es⟩
    simp only [List.isEmpty_iff]
    rcases rb with _ | _ <;> rcases ms with _ | ⟨m, ms⟩ <;>
      rcases es with _ | ⟨e, es⟩ <;> simp
  · intro hstatic
    unfold orchestratorTier at hstatic
    unfold orchestratorActions staticDeployActions dockerDeployActions
    by_cases hnb : needs_backend project
    · simp [hnb] at hstatic
    · simp [hnb]

/-- Witness for C3: a project whose analysis declares a required backend is
containerized, one with no analysis gets the static tier without a build. -/
theorem orchestrator_tier_selection_witness :
    orchestratorTier ⟨1, "app1", some ⟨true, [], []⟩⟩ = Tier.containerized ∧
    DeployAction.buildImage ∉ orchestratorActions ⟨2, "app2", none⟩ :=
  ⟨(orchestrator_tier_selection ⟨1, "app1", some ⟨true, [], []⟩⟩).1.mpr
      (Or.inl rfl),
   (orchestrator_tier_selection ⟨2, "app2", none⟩).2 (by decide)⟩

/-- Claim C5: a failed containerized rebuild-and-replace leaves the live
state (served files, running container, address) exactly as it was — the
code builds before it runs and never retires the old instance on a failure
path — and the static `update` path reports no failure at all. -/
theorem failed_update_preserves_live (st : DeployState)
    (buildResult : Except String String)
    (runResult : String → Except String String) (e : String) :
    ((dockerDeploy st buildResult runResult).2 = Except.error e →
      (dockerDeploy st buildResult runResult).1 = st) ∧
    (∀ changes, (staticUpdate st changes).2 = true) := by
  constructor
  · intro hfail
    unfold dockerDeploy at hfail ⊢
    rcases buildResult with e0 | image
    · rfl
    · rcases hrun : runResult image with e1 | c
      · simp [hrun]
      · simp [hrun] at hfail
  · intro changes
    rfl

/-- Witness for C5: with a failing build the live state is untouched, and a
static update of one file reports success. -/
theorem failed_update_preserves_live_witness :
    (dockerDeploy ⟨[("index.html", "old")], some "c0", "a.localhost"⟩
        (Except.error "build failed") (fun _ => Except.ok "c1")).1 =
      ⟨[("index.html", "old")], some "c0", "a.localhost"⟩ ∧
    (staticUpdate ⟨[("index.html", "old")], some "c0", "a.localhost"⟩
        [("index.html", "new")]).2 = true :=
  ⟨(failed_update_preserves_live ⟨[("index.html", "old")], some "c0",
      "a.localhost"⟩ (Except.error "build failed") (fun _ => Except.ok "c1")
      "build failed").1 rfl,
   (failed_update_preserves_live ⟨[("index.html", "old")], some "c0",
      "a.localhost"⟩ (Except.error "build failed") (fun _ => Except.ok "c1")
      "build failed").2 [("index.html", "new")]⟩

/-- One build event as the status endpoint returns it, after `pollStatus`
has filtered for `build_progress` events with a message and reversed the
list to oldest-first order. -/
structure EventRec where
  eid : String
  timestamp : Nat
  message : String
deriving DecidableEq

/-- One entry of the displayed message list kept by the studio component. -/
structure ChatMessage where
  mid : String
  content : String
  timestamp : Nat
deriving DecidableEq

/-- The message `pollStatus` pushes for a not-yet-seen event. -/
def toMessage (e : EventRec) : ChatMessage := ⟨e.eid, e.message, e.timestamp⟩

/-- The `exists` check of `pollStatus` in `BuildingStudio.tsx`: some message
already in the list has the same id or the same content. -/
def msgPresent (updated : List ChatMessage) (e : EventRec) : Bool :=
  updated.any (fun m => m.mid == e.eid || m.content == e.message)

/-- One iteration of the event loop in `pollStatus`: skip a present event,
append a new one at the end. -/
def mergeStep (updated : List ChatMessage) (e : EventRec) : List ChatMessage :=
  if msgPresent updated e then updated else updated ++ [toMessage e]

/-- The merge of one poll result into the accumulated message list. -/
def mergeEvents (prev : List ChatMessage) (events : List EventRec) :
    List ChatMessage :=
  events.foldl mergeStep prev

/-- Repeated polling starting from an empty message list: each poll returns
a prefix `log.take n` of the append-only event log, which the component
merges into its message list. -/
def pollsFrom (log : List EventRec) (r : List ChatMessage) (ns : List Nat) :
    List ChatMessage :=
  ns.foldl (fun acc n => mergeEvents acc (log.take n)) r

/-- The message list after a sequence of polls of the event log. -/
def applyPolls (log : List EventRec) (ns : List Nat) : List ChatMessage :=
  pollsFrom log [] ns

/-- Timestamp order on displayed messages. -/
def chronoLE (a b : ChatMessage) : Prop := a.timestamp ≤ b.timestamp

/-- Timestamp order on logged events. -/
def eventLE (a b : EventRec) : Prop := a.timestamp ≤ b.timestamp

instance (a b : ChatMessage) : Decidable (chronoLE a b) :=
  inferInstanceAs (Decidable (a.timestamp ≤ b.timestamp))

instance (a b : EventRec) : Decidable (eventLE a b) :=
  inferInstanceAs (Decidable (a.timestamp ≤ b.timestamp))

theorem mergeStep_eq_append (updated : List ChatMessage) (e : EventRec) :
    ∃ r, mergeStep updated e = updated ++ r := by
  unfold mergeStep
  by_cases h : msgPresent updated e = true
  · exact ⟨[], by simp [h]⟩
  · exact ⟨[toMessage e], by simp [h]⟩

theorem mergeEvents_eq_append (events : List EventRec) :
    ∀ prev, ∃ rest, mergeEvents prev events = prev ++ rest := by
  induction events with
  | nil => intro prev; exact ⟨[], (List.append_nil prev).symm⟩
  | cons e es ih =>
    intro prev
    rcases mergeStep_eq_append prev e with ⟨r0, h0⟩
    rcases ih (mergeStep prev e) with ⟨r1, h1⟩
    refine ⟨r0 ++ r1, ?_⟩
    show mergeEvents (mergeStep prev e) es = prev ++ (r0 ++ r1)
    rw [h1, h0, List.append_assoc]

theorem msgPresent_append (updated more : List ChatMessage) (e : EventRec)
    (h : msgPresent updated e = true) :
    msgPresent (updated ++ more) e = true := by
  unfold msgPresent at h ⊢
  rw [List.any_eq_true] at h ⊢
  rcases h with ⟨m, hm, hp⟩
  exact ⟨m, List.mem_append_left _ hm, hp⟩

theorem msgPresent_mergeEvents (prev : List ChatMessage)
    (events : List EventRec) (e : EventRec) (h : msgPresent prev e = true) :
    msgPresent (mergeEvents prev events) e = true := by
  rcases mergeEvents_eq_append events prev with ⟨rest, hr⟩
  rw [hr]
  exact msgPresent_append _ _ _ h

theorem msgPresent_mergeStep_self (updated : List ChatMessage)
    (e : EventRec) : msgPresent (mergeStep updated e) e = true := by
  unfold mergeStep
  by_cases h : msgPresent updated e = true
  · rw [if_pos h]
    exact h
  · rw [if_neg (by simp [h])]
    unfold msgPresent
    rw [List.any_eq_true]
    exact ⟨toMessage e, List.mem_append_right _ (List.mem_singleton_self _),
      by simp [toMessage]⟩

theorem msgPresent_of_mem (events : List EventRec) :
    ∀ (prev : List ChatMessage) (e : EventRec), e ∈ events →
      msgPresent (mergeEvents prev events) e = true := by
  induction events with
  | nil => intro prev e he; cases he
  | cons e0 es ih =>
    intro prev e he
    cases he with
    | head =>
      show msgPresent (mergeEvents (mergeStep prev e0) es) e0 = true
      exact msgPresent_mergeEvents _ es e0 (msgPresent_mergeStep_self prev e0)
    | tail _ hmem =>
      show msgPresent (mergeEvents (mergeStep prev e0) es) e = true
      exact ih (mergeStep prev e0) e hmem

theorem mergeEvents_noop (events : List EventRec) :
    ∀ prev, (∀ e ∈ events, msgPresent prev e = true) →
      mergeEvents prev events = prev := by
  induction events with
  | nil => intro prev _; rfl
  | cons e es ih =>
    intro prev h
    have h0 : mergeStep prev e = prev := by
      unfold mergeStep
      rw [if_pos (h e (List.mem_cons_self e es))]
    show mergeEvents (mergeStep prev e) es = prev
    rw [h0]
    exact ih prev (fun x hx => h x (List.mem_cons_of_mem _ hx))

theorem mem_mergeEvents (events : List EventRec) :
    ∀ (prev : List ChatMessage) (m : ChatMessage), m ∈ mergeEvents prev events →
      m ∈ prev ∨ ∃ e ∈ events, m = toMessage e := by
  induction events with
  | nil => intro prev m hm; exact Or.inl hm
  | cons e es ih =>
    intro prev m hm
    rcases ih (mergeStep prev e) m hm with hm2 | ⟨x, hx, hmx⟩
    · unfold mergeStep at hm2
      by_cases h : msgPresent prev e = true
      · rw [if_pos h] at hm2
        exact Or.inl hm2
      · rw [if_neg (by simp [h])] at hm2
        rcases List.mem_append.mp hm2 with h1 | h1
        · exact Or.inl h1
        · exact Or.inr ⟨e, List.mem_cons_self _ _, List.mem_singleton.mp h1⟩
    · exact Or.inr ⟨x, List.mem_cons_of_mem _ hx, hmx⟩

theorem mergeEvents_nodup (events : List EventRec) :
    ∀ prev, (prev.map ChatMessage.mid).Nodup →
      ((mergeEvents prev events).map ChatMessage.mid).Nodup := by
  induction events with
  | nil => intro prev h; exact h
  | cons e es ih =>
    intro prev h
    show ((mergeEvents (mergeStep prev e) es).map ChatMessage.mid).Nodup
    apply ih
    unfold mergeStep
    by_cases hp : msgPresent prev e = true
    · rw [if_pos hp]
      exact h
    · rw [if_neg (by simp [hp])]
      rw [List.map_append, List.nodup_append]
      refine ⟨h, by simp, ?_⟩
      intro a ha hb
      rcases List.mem_map.mp ha with ⟨m, hm, hmid⟩
      have haeid : a = e.eid := by simpa [toMessage] using hb
      apply hp
      unfold msgPresent
      rw [List.any_eq_true]
      refine ⟨m, hm, ?_⟩
      rw [Bool.or_eq_true]
      exact Or.inl (by rw [beq_iff_eq, hmid, haeid])

theorem mergeEvents_sorted (events : List EventRec) :
    ∀ prev, List.Pairwise chronoLE prev → List.Pairwise eventLE events →
      (∀ e ∈ events, msgPresent prev e = true ∨
        ∀ m ∈ prev, m.timestamp ≤ e.timestamp) →
      List.Pairwise chronoLE (mergeEvents prev events) := by
  induction events with
  | nil => intro prev hp _ _; exact hp
  | cons e es ih =>
    intro prev hp he hmix
    rcases List.pairwise_cons.mp he with ⟨hhead, htail⟩
    show List.Pairwise chronoLE (mergeEvents (mergeStep prev e) es)
    by_cases hpres : msgPresent prev e = true
    · have hstep : mergeStep prev e = prev := by
        unfold mergeStep
        rw [if_pos hpres]
      rw [hstep]
      exact ih prev hp htail (fun x hx => hmix x (List.mem_cons_of_mem _ hx))
    · have hbound : ∀ m ∈ prev, m.timestamp ≤ e.timestamp := by
        rcases hmix e (List.mem_cons_self _ _) with h | h
        · exact absurd h hpres
        · exact h
      have hstep : mergeStep prev e = prev ++ [toMessage e] := by
        unfold mergeStep
        rw [if_neg (by simp [hpres])]
      rw [hstep]
      apply ih
      · rw [List.pairwise_append]
        refine ⟨hp, by simp, ?_⟩
        intro a ha b hb
        have hbe : b = toMessage e := List.mem_singleton.mp hb
        unfold chronoLE
        rw [hbe]
        exact hbound a ha
      · exact htail
      · intro x hx
        rcases hmix x (List.mem_cons_of_mem _ hx) with h | h
        · exact Or.inl (msgPresent_append _ _ _ h)
        · refine Or.inr ?_
          intro m hm
          rcases List.mem_append.mp hm with h1 | h1
          · exact h m h1
          · have hme : m = toMessage e := List.mem_singleton.mp h1
            rw [hme]
            exact hhead x hx

theorem take_subset_take {α : Type} (l : List α) {m n : Nat} (h : m ≤ n) :
    l.take m ⊆ l.take n := by
  intro x hx
  have heq : (l.take n).take m = l.take m := by
    rw [List.take_take, Nat.min_eq_left h]
  rw [← heq] at hx
  exact List.take_subset m (l.take n) hx

theorem take_ts_bound (log : List EventRec)
    (hlog : List.Pairwise eventLE log) (m n : Nat) (e : EventRec)
    (he : e ∈ log.take n) (hnot : e ∉ log.take m) (e2 : EventRec)
    (h2 : e2 ∈ log.take m) : e2.timestamp ≤ e.timestamp := by
  rcases List.mem_iff_get.mp h2 with ⟨i, hi⟩
  rcases List.mem_iff_get.mp he with ⟨j, hj⟩
  have hilen : (i : Nat) < log.length := by
    have := i.isLt
    simp [List.length_take] at this
    omega
  have hjlen : (j : Nat) < log.length := by
    have := j.isLt
    simp [List.length_take] at this
    omega
  have him : (i : Nat) < m := by
    have := i.isLt
    simp [List.length_take] at this
    omega
  have hie2 : log.get ⟨i, hilen⟩ = e2 := by
    rw [← hi]
    simp [List.get_eq_getElem, List.getElem_take]
  have hje : log.get ⟨j, hjlen⟩ = e := by
    rw [← hj]
    simp [List.get_eq_getElem, List.getElem_take]
  have hjm : m ≤ (j : Nat) := by
    by_contra hlt
    push_neg at hlt
    apply hnot
    have hjtake : (j : Nat) < (log.take m).length := by
      simp [List.length_take]
      omega
    have : (log.take m).get ⟨j, hjtake⟩ = e := by
      rw [← hje]
      simp [List.get_eq_getElem, List.getElem_take]
    rw [← this]
    exact List.get_mem _ _ _
  have hij : (⟨i, hilen⟩ : Fin log.length) < ⟨j, hjlen⟩ := by
    simp [Fin.lt_def]
    omega
  have := List.pairwise_iff_get.mp hlog ⟨i, hilen⟩ ⟨j, hjlen⟩ hij
  rw [hie2, hje] at this
  exact this

theorem pollsFrom_inv (log : List EventRec)
    (hlog : List.Pairwise eventLE log) :
    ∀ (ns : List Nat) (r : List ChatMessage) (m : Nat),
      (∀ e ∈ log.take m, msgPresent r e = true) →
      (∀ msg ∈ r, ∃ e ∈ log.take m, msg.timestamp = e.timestamp) →
      List.Pairwise chronoLE r →
      (r.map ChatMessage.mid).Nodup →
      ∃ m2, m ≤ m2 ∧
        (∀ e ∈ log.take m2, msgPresent (pollsFrom log r ns) e = true) ∧
        (∀ msg ∈ pollsFrom log r ns,
          ∃ e ∈ log.take m2, msg.timestamp = e.timestamp) ∧
        List.Pairwise chronoLE (pollsFrom log r ns) ∧
        ((pollsFrom log r ns).map ChatMessage.mid).Nodup ∧
        (∀ n ∈ ns, n ≤ m2) := by
  intro ns
  induction ns with
  | nil =>
    intro r m h1 h2 h3 h4
    exact ⟨m, le_refl m, h1, h2, h3, h4, by simp⟩
  | cons n ns ih =>
    intro r m h1 h2 h3 h4
    have hr1 : pollsFrom log r (n :: ns) = pollsFrom log (mergeEvents r (log.take n)) ns := rfl
    set r1 := mergeEvents r (log.take n) with hr1def
    have g1 : ∀ e ∈ log.take (max m n), msgPresent r1 e = true := by
      intro e hetake
      rcases Nat.le_total m n with hmn | hnm
      · rw [Nat.max_eq_right hmn] at hetake
        exact msgPresent_of_mem (log.take n) r e hetake
      · rw [Nat.max_eq_left hnm] at hetake
        exact msgPresent_mergeEvents r (log.take n) e (h1 e hetake)
    have g2 : ∀ msg ∈ r1, ∃ e ∈ log.take (max m n), msg.timestamp = e.timestamp := by
      intro msg hmsg
      rcases mem_mergeEvents (log.take n) r msg hmsg with hin | ⟨e, hein, hme⟩
      · rcases h2 msg hin with ⟨e, hetake, hts⟩
        exact ⟨e, take_subset_take log (Nat.le_max_left m n) hetake, hts⟩
      · refine ⟨e, take_subset_take log (Nat.le_max_right m n) hein, ?_⟩
        rw [hme]
        rfl
    have g3 : List.Pairwise chronoLE r1 := by
      apply mergeEvents_sorted (log.take n) r h3
      · exact List.Pairwise.sublist (List.take_sublist n log) hlog
      · intro e hein
        by_cases hpres : msgPresent r e = true
        · exact Or.inl hpres
        · refine Or.inr ?_
          intro msg hmsg
          rcases h2 msg hmsg with ⟨e2, he2, hts⟩
          have hnot : e ∉ log.take m := fun hmem => hpres (h1 e hmem)
          rw [hts]
          exact take_ts_bound log hlog m n e hein hnot e2 he2
    have g4 : (r1.map ChatMessage.mid).Nodup :=
      mergeEvents_nodup (log.take n) r h4
    rcases ih r1 (max m n) g1 g2 g3 g4 with
      ⟨m2, hm2, k1, k2, k3, k4, k5⟩
    refine ⟨m2, le_trans (Nat.le_max_left m n) hm2, ?_, ?_, ?_, ?_, ?_⟩
    · exact k1
    · exact k2
    · exact k3
    · exact k4
    · intro k hk
      rcases List.mem_cons.mp hk with hk | hk
      · rw [hk]
        exact le_trans (Nat.le_max_right m n) hm2
      · exact k5 k hk

/-- Claim C2: after any sequence of polls of a BuildSession event log (each
poll returning a prefix of the append-only, timestamp-ordered log), the
merged message list holds each event identifier at most once, its entries
are in non-decreasing timestamp order, and re-merging an already applied
poll leaves the list unchanged. -/
theorem poll_merge_properties (log : List EventRec)
    (hlog : List.Pairwise eventLE log) (ns : List Nat) :
    ((applyPolls log ns).map ChatMessage.mid).Nodup ∧
    List.Pairwise chronoLE (applyPolls log ns) ∧
    ∀ n ∈ ns, mergeEvents (applyPolls log ns) (log.take n) = applyPolls log ns := by
  rcases pollsFrom_inv log hlog ns [] 0 (by simp) (by simp) (by simp) (by simp)
    with ⟨m2, _, hpres, _, hsort, hnodup, hbnd⟩
  refine ⟨hnodup, hsort, ?_⟩
  intro n hn
  apply mergeEvents_noop
  intro e he
  exact hpres e (take_subset_take log (hbnd n hn) he)

/-- A two-event log used to instantiate the polling theorems. -/
def logW : List EventRec :=
  [⟨"e1", 10, "Analyzing request"⟩, ⟨"e2", 20, "Generating code"⟩]

/-- Witness for C2: polling the concrete log `logW` first through one event
and then through both leaves a duplicate-free, timestamp-ordered list, and
re-merging the full log changes nothing. -/
theorem poll_merge_properties_witness :
    ((applyPolls logW [1, 2]).map ChatMessage.mid).Nodup ∧
    List.Pairwise chronoLE (applyPolls logW [1, 2]) ∧
    mergeEvents (applyPolls logW [1, 2]) (logW.take 2) = applyPolls logW [1, 2] := by
  have h := poll_merge_properties logW (by decide) [1, 2]
  exact ⟨h.1, h.2.1, h.2.2 2 (by decide)⟩

/-- Claim C10: inside the poll merge, an incoming event is dropped exactly
when some already-merged message carries the same identifier or the same
content string; so of two different-id events with identical message text
only the first is ever appended. -/
theorem duplicate_content_collapsed (updated prev : List ChatMessage)
    (e e1 e2 : EventRec) :
    (mergeStep updated e = updated ↔ msgPresent updated e = true) ∧
    (msgPresent prev e1 = false → e1.message = e2.message → e1.eid ≠ e2.eid →
      mergeEvents prev [e1, e2] = prev ++ [toMessage e1]) := by
  constructor
  · constructor
    · intro heq
      by_contra hnp
      rw [Bool.not_eq_true] at hnp
      unfold mergeStep at heq
      rw [if_neg (by simp [hnp])] at heq
      have := congrArg List.length heq
      simp at this
    · intro hp
      unfold mergeStep
      rw [if_pos hp]
  · intro hnp heqmsg _hne
    show mergeStep (mergeStep prev e1) e2 = prev ++ [toMessage e1]
    have h1 : mergeStep prev e1 = prev ++ [toMessage e1] := by
      unfold mergeStep
      rw [if_neg (by simp [hnp])]
    rw [h1]
    have h2 : msgPresent (prev ++ [toMessage e1]) e2 = true := by
      unfold msgPresent
      rw [List.any_eq_true]
      refine ⟨toMessage e1,
        List.mem_append_right _ (List.mem_singleton_self _), ?_⟩
      rw [Bool.or_eq_true]
      exact Or.inr (by rw [beq_iff_eq]; exact heqmsg)
    unfold mergeStep
    rw [if_pos h2]

/-- Witness for C10: two events with different ids but the same message
collapse to a single displayed message. -/
theorem duplicate_content_collapsed_witness :
    mergeEvents [] [⟨"a", 1, "Done"⟩, ⟨"b", 2, "Done"⟩] =
      [toMessage ⟨"a", 1, "Done"⟩] := by
  have h := (duplicate_content_collapsed [] [] ⟨"a", 1, "Done"⟩
    ⟨"a", 1, "Done"⟩ ⟨"b", 2, "Done"⟩).2 (by decide) rfl (by decide)
  simpa using h

/-- Char-list version of startsWith, used to express the substring test. -/
def charsStart : List Char → List Char → Bool
  | _, [] => true
  | [], _ :: _ => false
  | c :: cs, p :: ps => (c == p) && charsStart cs ps

/-- Char-list substring test. -/
def charsHave : List Char → List Char → Bool
  | [], ps => charsStart [] ps
  | c :: cs, ps => charsStart (c :: cs) ps || charsHave cs ps

/-- The JavaScript `latestMsg.includes(pat)` substring test. -/
def strIncludes (s pat : String) : Bool := charsHave s.data pat.data

/-- The progress heuristic of the second `pollStatus` variant in
`BuildingStudio.tsx`: the poll first stores `data.build_progress`, then, when
the poll carried progress events, overwrites it from the latest message via
the keyword chain, falling back to `min(60, 10 + 5 * count)`. -/
def displayedProgress (backendProgress : Nat) (status : String)
    (msgs : List String) : Nat :=
  match msgs.getLast? with
  | none => backendProgress
  | some latest =>
    if status == "deployed" then 100
    else if strIncludes latest "Deploying" then 85
    else if strIncludes latest "Code generation complete" then 75
    else if strIncludes latest "Generated" then 70
    else min 60 (10 + msgs.length * 5)

/-- The build phase the heuristic recognises from the latest message, as a
rank: deployed, Deploying, Code generation complete, Generated, none. -/
def phaseRank (status : String) (latest : String) : Nat :=
  if status == "deployed" then 4
  else if strIncludes latest "Deploying" then 3
  else if strIncludes latest "Code generation complete" then 2
  else if strIncludes latest "Generated" then 1
  else 0

/-- The progress value the heuristic assigns to each phase rank. -/
def rankValue (rank numEvents : Nat) : Nat :=
  match rank with
  | 0 => min 60 (10 + numEvents * 5)
  | 1 => 70
  | 2 => 75
  | 3 => 85
  | _ + 4 => 100

theorem displayedProgress_eq_rankValue (backendProgress : Nat)
    (status : String) (msgs : List String) (latest : String)
    (h : msgs.getLast? = some latest) :
    displayedProgress backendProgress status msgs =
      rankValue (phaseRank status latest) msgs.length := by
  unfold displayedProgress phaseRank
  rw [h]
  by_cases h4 : (status == "deployed") = true
  · simp [h4, rankValue]
  · by_cases h3 : strIncludes latest "Deploying" = true
    · simp [h4, h3, rankValue]
    · by_cases h2 : strIncludes latest "Code generation complete" = true
      · simp [h4, h3, h2, rankValue]
      · by_cases h1 : strIncludes latest "Generated" = true
        · simp [h4, h3, h2, h1, rankValue]
        · simp [h4, h3, h2, h1, rankValue]

theorem rankValue_mono {r1 r2 n1 n2 : Nat} (hr : r1 ≤ r2) (hn : n1 ≤ n2) :
    rankValue r1 n1 ≤ rankValue r2 n2 := by
  rcases r1 with _ | _ | _ | _ | k1 <;> rcases r2 with _ | _ | _ | _ | k2 <;>
    simp only [rankValue] <;> omega

/-- Claim C8 counterexample: a later poll of the same session can display a
strictly smaller progress value — after the heuristic showed 85 for a
"Deploying" message, one more event whose text matches no keyword drops the
displayed progress to 20. -/
theorem progress_not_monotone :
    displayedProgress 0 "building" ["Deploying app"] = 85 ∧
    displayedProgress 0 "building" ["Deploying app", "Adding polish"] = 20 ∧
    displayedProgress 0 "building" ["Deploying app", "Adding polish"] <
      displayedProgress 0 "building" ["Deploying app"] := by
  refine ⟨?_, ?_, ?_⟩ <;> decide

/-- Claim C8 amended: the displayed progress is non-decreasing over any
sequence of polls in which the recognised build phase never regresses and
the progress-event count never shrinks. -/
theorem progress_monotone_amended (bp1 bp2 : Nat) (s1 s2 : String)
    (m1 m2 : List String) (l1 l2 : String)
    (h1 : m1.getLast? = some l1) (h2 : m2.getLast? = some l2)
    (hrank : phaseRank s1 l1 ≤ phaseRank s2 l2)
    (hlen : m1.length ≤ m2.length) :
    displayedProgress bp1 s1 m1 ≤ displayedProgress bp2 s2 m2 := by
  rw [displayedProgress_eq_rankValue bp1 s1 m1 l1 h1,
    displayedProgress_eq_rankValue bp2 s2 m2 l2 h2]
  exact rankValue_mono hrank hlen

/-- Witness for the amended C8: from a "Generated" poll to a "Deploying"
poll the displayed progress moves from 70 up to 85. -/
theorem progress_monotone_amended_witness :
    displayedProgress 0 "building" ["Generated 3 files"] ≤
      displayedProgress 0 "building" ["Generated 3 files", "Deploying app"] :=
  progress_monotone_amended 0 0 "building" "building"
    ["Generated 3 files"] ["Generated 3 files", "Deploying app"]
    "Generated 3 files" "Deploying app" rfl rfl (by decide) (by decide)

/-- A `code_templates` row as `find_similar_templates` reads it. -/
structure TemplateRec where
  name : String
  category : Option String
  usage_count : Nat
  success_rate : ℚ
  embedding : Option (List ℚ)
deriving DecidableEq

/-- `CodeSearchEngine.find_similar_templates` with the embedding provider
and the cosine computation abstracted into the per-template similarity
function `sim`: filter by category, keep rows with an embedding, score,
sort by score descending, return the top `limit` with their scores. -/
def findSimilarScored (sim : TemplateRec → ℚ) (category : Option String)
    (templates : List TemplateRec) (limit : Nat) :
    List (TemplateRec × ℚ) :=
  let filtered := match category with
    | none => templates
    | some c => templates.filter (fun t => t.category == some c)
  let scored := (filtered.filter (fun t => t.embedding.isSome)).map
    (fun t => (t, sim t))
  (scored.mergeSort (fun a b => decide (b.2 ≤ a.2))).take limit

/-- The template list `find_similar_templates` returns. -/
def findSimilarTemplates (sim : TemplateRec → ℚ) (category : Option String)
    (templates : List TemplateRec) (limit : Nat) : List TemplateRec :=
  (findSimilarScored sim category templates limit).map Prod.fst

/-- The `MIN_REUSE_SIMILARITY` configuration value (0.85). -/
def MIN_REUSE_SIMILARITY : ℚ := 85 / 100

/-- Modelled from the spec: the reuse-acceptance decision itself is not in
the repository code — only the `MIN_REUSE_SIMILARITY=0.85` configuration
value is declared — so per §4.2 the top-ranked candidate is accepted for
reuse only if its weighted score clears the threshold, otherwise the
pipeline falls through to fresh generation (`none`). -/
def selectForReuse (ranked : List (TemplateRec × ℚ)) : Option TemplateRec :=
  match ranked with
  | [] => none
  | (t, s) :: _ => if MIN_REUSE_SIMILARITY ≤ s then some t else none

theorem mem_findSimilarScored (sim : TemplateRec → ℚ)
    (category : Option String) (templates : List TemplateRec) (limit : Nat)
    (p : TemplateRec × ℚ)
    (hp : p ∈ findSimilarScored sim category templates limit) :
    p.1 ∈ templates ∧ p.2 = sim p.1 := by
  unfold findSimilarScored at hp
  have hp2 := List.take_subset _ _ hp
  rw [List.mem_mergeSort] at hp2
  rcases List.mem_map.mp hp2 with ⟨t, ht, hpt⟩
  rcases List.mem_filter.mp ht with ⟨ht1, _⟩
  have htm : t ∈ templates := by
    rcases category with _ | c
    · exact ht1
    · exact (List.mem_filter.mp ht1).1
  rw [← hpt]
  exact ⟨htm, rfl⟩

/-- Claim C6: a candidate is selected for reuse only when its weighted
score clears `MIN_REUSE_SIMILARITY`; when no candidate clears it, the
pipeline returns `none` (fresh generation) rather than the best-ranked
candidate. -/
theorem reuse_threshold (sim : TemplateRec → ℚ) (category : Option String)
    (templates : List TemplateRec) (limit : Nat) (t : TemplateRec) :
    (selectForReuse (findSimilarScored sim category templates limit) = some t →
      t ∈ templates ∧ MIN_REUSE_SIMILARITY ≤ sim t) ∧
    ((∀ tp ∈ templates, sim tp < MIN_REUSE_SIMILARITY) →
      selectForReuse (findSimilarScored sim category templates limit) = none) := by
  constructor
  · intro hsel
    unfold selectForReuse at hsel
    rcases hranked : findSimilarScored sim category templates limit with
      _ | ⟨⟨t0, s0⟩, rest⟩
    · rw [hranked] at hsel
      cases hsel
    · rw [hranked] at hsel
      change (if MIN_REUSE_SIMILARITY ≤ s0 then some t0 else none) = some t
        at hsel
      by_cases hth : MIN_REUSE_SIMILARITY ≤ s0
      · rw [if_pos hth] at hsel
        have ht0 : t0 = t := Option.some.inj hsel
        have hmem := mem_findSimilarScored sim category templates limit
          (t0, s0) (by rw [hranked]; exact List.mem_cons_self _ _)
        refine ⟨ht0 ▸ hmem.1, ?_⟩
        have hs0 : s0 = sim t0 := hmem.2
        rw [← ht0, ← hs0]
        exact hth
      · rw [if_neg hth] at hsel
        cases hsel
  · intro hall
    unfold selectForReuse
    rcases hranked : findSimilarScored sim category templates limit with
      _ | ⟨⟨t0, s0⟩, rest⟩
    · rfl
    · have hmem := mem_findSimilarScored sim category templates limit
        (t0, s0) (by rw [hranked]; exact List.mem_cons_self _ _)
      have hlt : s0 < MIN_REUSE_SIMILARITY := by
        have h := hall t0 hmem.1
        have hs0 : s0 = sim t0 := hmem.2
        rw [hs0]
        exact h
      show (if MIN_REUSE_SIMILARITY ≤ s0 then some t0 else none) = none
      rw [if_neg (not_le.mpr hlt)]

/-- A concrete template row for witnesses. -/
def tmplW : TemplateRec := ⟨"todo-app", some "webapp", 4, 9 / 10, some [1, 0]⟩

/-- Witness for C6: a single candidate scoring 1/2 stays below the 0.85
threshold, so the selection falls through to fresh generation. -/
theorem reuse_threshold_witness :
    selectForReuse (findSimilarScored (fun _ => (1 : ℚ) / 2) none [tmplW] 5) =
      none :=
  (reuse_threshold (fun _ => (1 : ℚ) / 2) none [tmplW] 5 tmplW).2
    (fun _ _ => by norm_num [MIN_REUSE_SIMILARITY])

/-- The weighting applied by `find_reusable_components`:
`similarity * (1 + usage_count * 0.01) * rating` (the `rating` column is the
success statistic of the component library). -/
def componentScore (similarity : ℚ) (usage_count : Nat) (rating : ℚ) : ℚ :=
  similarity * (1 + (usage_count : ℚ) * (1 / 100)) * rating

/-- A candidate's rank: the number of competitors whose weighted score is
strictly greater. -/
def rankAmong (others : List ℚ) (s : ℚ) : Nat :=
  others.countP (fun x => decide (s < x))

/-- Claim C7 counterexample: at a negative fixed raw cosine similarity,
raising `usage_count` from 0 to 100 strictly lowers the weighted score, and
likewise at a negative rating — the score is not monotone for every fixed
similarity. -/
theorem component_score_not_monotone :
    componentScore (-1) 100 1 < componentScore (-1) 0 1 ∧
    componentScore 1 100 (-1) < componentScore 1 0 (-1) := by
  constructor <;> norm_num [componentScore]

/-- Claim C7 amended: for a nonnegative fixed raw similarity and
nonnegative rating, raising `usage_count` or the rating never lowers the
weighted score, and the raised score never worsens the candidate's rank. -/
theorem component_score_monotone (sim rating rating2 : ℚ) (uc uc2 : Nat)
    (others : List ℚ) (hsim : 0 ≤ sim) (hr : 0 ≤ rating)
    (hrr : rating ≤ rating2) (huc : uc ≤ uc2) :
    componentScore sim uc rating ≤ componentScore sim uc2 rating ∧
    componentScore sim uc rating ≤ componentScore sim uc rating2 ∧
    rankAmong others (componentScore sim uc2 rating) ≤
      rankAmong others (componentScore sim uc rating) ∧
    rankAmong others (componentScore sim uc rating2) ≤
      rankAmong others (componentScore sim uc rating) := by
  have hcast : (uc : ℚ) ≤ (uc2 : ℚ) := Nat.cast_le.mpr huc
  have h0 : (0 : ℚ) ≤ (uc : ℚ) := Nat.cast_nonneg uc
  have h1 : componentScore sim uc rating ≤ componentScore sim uc2 rating := by
    unfold componentScore
    nlinarith [mul_nonneg (mul_nonneg hsim hr) (sub_nonneg.mpr hcast)]
  have h2 : componentScore sim uc rating ≤ componentScore sim uc rating2 := by
    unfold componentScore
    have hf : (0 : ℚ) ≤ sim * (1 + (uc : ℚ) * (1 / 100)) := by
      apply mul_nonneg hsim
      positivity
    exact mul_le_mul_of_nonneg_left hrr hf
  have hrank : ∀ s s2 : ℚ, s ≤ s2 →
      rankAmong others s2 ≤ rankAmong others s := by
    intro s s2 hs
    unfold rankAmong
    apply List.countP_mono_left
    intro x _ hx
    rw [decide_eq_true_iff] at hx ⊢
    exact lt_of_le_of_lt hs hx
  exact ⟨h1, h2, hrank _ _ h1, hrank _ _ h2⟩

/-- Witness for the amended C7 at concrete statistics. -/
theorem component_score_monotone_witness :
    componentScore (1 / 2) 1 1 ≤ componentScore (1 / 2) 2 1 ∧
    componentScore (1 / 2) 1 1 ≤ componentScore (1 / 2) 1 2 ∧
    rankAmong [1, 2] (componentScore (1 / 2) 2 1) ≤
      rankAmong [1, 2] (componentScore (1 / 2) 1 1) ∧
    rankAmong [1, 2] (componentScore (1 / 2) 1 2) ≤
      rankAmong [1, 2] (componentScore (1 / 2) 1 1) :=
  component_score_monotone (1 / 2) 1 2 1 2 [1, 2] (by norm_num)
    (by norm_num) (by norm_num) (by norm_num)

/-- A generated artifact: the mapping of file name to content. -/
structure Artifact where
  files : List (String × String)
deriving DecidableEq

/-- Outcome of one generation attempt. -/
inductive AttemptOutcome
  | accepted
  | rejectedRetry
  | rejectedExhausted
deriving DecidableEq

/-- One `GenerationAttempt`: 0-based index, validation findings, outcome. -/
structure GenerationAttempt where
  index : Nat
  findings : List String
  outcome : AttemptOutcome
deriving DecidableEq

/-- Lifecycle phase of a BuildSession. -/
inductive SessionPhase
  | generating
  | validating
  | deploying
  | deployed
  | failed (findings : List String)
  | stopped
deriving DecidableEq

/-- Modelled from the spec: the retry ceiling, default 3 ("Max 3 attempts" /
"Retry up to 3 times" in FAIBRIC_V5_REDESIGN.md); the loop implementation
itself is not in the repository. -/
def ceiling : Nat := 3

/-- Modelled from the spec: the Validator / Auto-Fixer loop of §4.4 with
`fuel` attempts remaining at attempt index `idx`: generate, validate;
accept and hand the artifact to deployment when there are no findings;
otherwise retry while attempts remain, else fail carrying the last finding
list. Returns the created attempts, the resulting phase, and the artifact
handed to deployment (if any). -/
def autoFixGo (gen : Nat → Artifact) (validate : Artifact → List String) :
    Nat → Nat → List GenerationAttempt × SessionPhase × Option Artifact
  | 0, _ => ([], SessionPhase.failed [], none)
  | fuel + 1, idx =>
    let a := gen idx
    let fs := validate a
    if fs = [] then
      ([⟨idx, [], AttemptOutcome.accepted⟩], SessionPhase.deploying, some a)
    else if fuel = 0 then
      ([⟨idx, fs, AttemptOutcome.rejectedExhausted⟩],
        SessionPhase.failed fs, none)
    else
      let r := autoFixGo gen validate fuel (idx + 1)
      (⟨idx, fs, AttemptOutcome.rejectedRetry⟩ :: r.1, r.2)

/-- The auto-fix loop from attempt 0 with the default ceiling. -/
def autoFix (gen : Nat → Artifact) (validate : Artifact → List String) :
    List GenerationAttempt × SessionPhase × Option Artifact :=
  autoFixGo gen validate ceiling 0

/-- Claim C1: a Validator that always reports a finding drives exactly
`ceiling` (3) GenerationAttempts; the session then ends `failed` carrying
the last finding list, and no artifact is ever handed to deployment. -/
theorem retry_ceiling_exhausts (gen : Nat → Artifact)
    (validate : Artifact → List String) (h : ∀ a, validate a ≠ []) :
    (autoFix gen validate).1.length = ceiling ∧
    (autoFix gen validate).2.1 =
      SessionPhase.failed (validate (gen (ceiling - 1))) ∧
    (autoFix gen validate).2.2 = none := by
  have h0 := h (gen 0)
  have h1 := h (gen 1)
  have h2 := h (gen 2)
  refine ⟨?_, ?_, ?_⟩ <;> simp [autoFix, ceiling, autoFixGo, h0, h1, h2]

/-- A generator used in witnesses. -/
def wgen : Nat → Artifact := fun _ => ⟨[("App.jsx", "code")]⟩

/-- A validator used in witnesses that always reports one finding. -/
def wval : Artifact → List String := fun _ => ["missing export default"]

/-- Witness for C1: the always-failing validator yields exactly 3 attempts,
a failed session with the last findings, and no deployment. -/
theorem retry_ceiling_exhausts_witness :
    (autoFix wgen wval).1.length = ceiling ∧
    (autoFix wgen wval).2.1 =
      SessionPhase.failed (wval (wgen (ceiling - 1))) ∧
    (autoFix wgen wval).2.2 = none :=
  retry_ceiling_exhausts wgen wval (fun a => by simp [wval])

/-- One generation attempt of a session with its resolution state: `none`
while in flight. -/
structure SessionAttempt where
  index : Nat
  resolved : Option AttemptOutcome
deriving DecidableEq

/-- A BuildSession as the modify/busy logic sees it. -/
structure Session where
  phase : SessionPhase
  attempts : List SessionAttempt
deriving DecidableEq

/-- The number of in-flight (unresolved) attempts of a session. -/
def inFlightCount (s : Session) : Nat :=
  s.attempts.countP (fun a => a.resolved.isNone)

/-- The result of a modify request. -/
inductive ModifyResult
  | ack
  | busy
deriving DecidableEq

/-- Modelled from the spec: the `modify` endpoint (§5, §6) — not in the
repository code. While the session is `generating` or `deploying` the
request is rejected with `busy` and no attempt is created; from `deployed`
it re-enters generation with a fresh attempt index continuation; terminal
and transient phases likewise reject. -/
def modifySession (s : Session) (_text : String) : Session × ModifyResult :=
  if s.phase = SessionPhase.generating ∨ s.phase = SessionPhase.deploying then
    (s, ModifyResult.busy)
  else if s.phase = SessionPhase.deployed then
    (⟨SessionPhase.generating,
      s.attempts ++ [⟨s.attempts.length, none⟩]⟩, ModifyResult.ack)
  else (s, ModifyResult.busy)

/-- Mark every in-flight attempt as resolved with outcome `o`. -/
def closeAttempts (attempts : List SessionAttempt) (o : AttemptOutcome) :
    List SessionAttempt :=
  attempts.map (fun a => if a.resolved.isNone then ⟨a.index, some o⟩ else a)

/-- Modelled from the spec: the Validator resolving the in-flight attempt —
acceptance moves to deploying, a retry opens the next attempt, exhaustion
fails the session. -/
def resolveAttempt (s : Session) (o : AttemptOutcome) : Session :=
  match o with
  | AttemptOutcome.accepted =>
    ⟨SessionPhase.deploying, closeAttempts s.attempts o⟩
  | AttemptOutcome.rejectedRetry =>
    ⟨SessionPhase.generating,
      closeAttempts s.attempts o ++ [⟨s.attempts.length, none⟩]⟩
  | AttemptOutcome.rejectedExhausted =>
    ⟨SessionPhase.failed [], closeAttempts s.attempts o⟩

/-- Modelled from the spec: the deployment step finishing. -/
def finishDeploy (s : Session) (ok : Bool) : Session :=
  if s.phase = SessionPhase.deploying then
    ⟨if ok then SessionPhase.deployed else SessionPhase.failed [],
      s.attempts⟩
  else s

/-- The session-level operations that can interleave with modify
requests. -/
inductive SessionOp
  | modifyReq (text : String)
  | resolve (o : AttemptOutcome)
  | deployDone (ok : Bool)

/-- Apply one session operation. -/
def applyOp (s : Session) (op : SessionOp) : Session :=
  match op with
  | SessionOp.modifyReq text => (modifySession s text).1
  | SessionOp.resolve o => resolveAttempt s o
  | SessionOp.deployDone ok => finishDeploy s ok

/-- Apply a sequence of session operations. -/
def applyOps (s : Session) (ops : List SessionOp) : Session :=
  ops.foldl applyOp s

/-- A fresh session: request accepted, attempt 0 in flight. -/
def startSession : Session := ⟨SessionPhase.generating, [⟨0, none⟩]⟩

/-- The session invariant: at most one attempt in flight, and none while
deploying or after deployment. -/
def sessionWF (s : Session) : Prop :=
  inFlightCount s ≤ 1 ∧
  (s.phase = SessionPhase.deploying → inFlightCount s = 0) ∧
  (s.phase = SessionPhase.deployed → inFlightCount s = 0)

theorem countP_closeAttempts (attempts : List SessionAttempt)
    (o : AttemptOutcome) :
    (closeAttempts attempts o).countP (fun a => a.resolved.isNone) = 0 := by
  unfold closeAttempts
  rw [List.countP_eq_zero]
  intro a ha
  rcases List.mem_map.mp ha with ⟨b, _, hb⟩
  by_cases hr : b.resolved.isNone = true
  · rw [if_pos hr] at hb
    rw [← hb]
    simp
  · rw [if_neg hr] at hb
    rw [← hb]
    simpa using hr

theorem inFlightCount_mk (ph : SessionPhase) (l : List SessionAttempt) :
    inFlightCount ⟨ph, l⟩ = l.countP (fun a => a.resolved.isNone) := rfl

theorem applyOp_wf (s : Session) (op : SessionOp) (hs : sessionWF s) :
    sessionWF (applyOp s op) := by
  rcases hs with ⟨hle, hdeploying, hdeployed⟩
  cases op with
  | modifyReq text =>
    show sessionWF (modifySession s text).1
    unfold modifySession
    by_cases hb : s.phase = SessionPhase.generating ∨
        s.phase = SessionPhase.deploying
    · rw [if_pos hb]
      exact ⟨hle, hdeploying, hdeployed⟩
    · rw [if_neg hb]
      by_cases hd : s.phase = SessionPhase.deployed
      · rw [if_pos hd]
        have hz : s.attempts.countP (fun a => a.resolved.isNone) = 0 :=
          hdeployed hd
        show sessionWF ⟨SessionPhase.generating,
          s.attempts ++ [⟨s.attempts.length, none⟩]⟩
        refine ⟨?_, ?_, ?_⟩
        · rw [inFlightCount_mk, List.countP_append, hz]
          simp [List.countP_cons]
        · intro h
          cases h
        · intro h
          cases h
      · rw [if_neg hd]
        exact ⟨hle, hdeploying, hdeployed⟩
  | resolve o =>
    show sessionWF (resolveAttempt s o)
    have hz := countP_closeAttempts s.attempts o
    cases o with
    | accepted =>
      show sessionWF ⟨SessionPhase.deploying,
        closeAttempts s.attempts AttemptOutcome.accepted⟩
      refine ⟨?_, ?_, ?_⟩
      · rw [inFlightCount_mk, hz]
        exact Nat.zero_le 1
      · intro _
        rw [inFlightCount_mk, hz]
      · intro h
        cases h
    | rejectedRetry =>
      show sessionWF ⟨SessionPhase.generating,
        closeAttempts s.attempts AttemptOutcome.rejectedRetry ++
          [⟨s.attempts.length, none⟩]⟩
      refine ⟨?_, ?_, ?_⟩
      · rw [inFlightCount_mk, List.countP_append, hz]
        simp [List.countP_cons]
      · intro h
        cases h
      · intro h
        cases h
    | rejectedExhausted =>
      show sessionWF ⟨SessionPhase.failed [],
        closeAttempts s.attempts AttemptOutcome.rejectedExhausted⟩
      refine ⟨?_, ?_, ?_⟩
      · rw [inFlightCount_mk, hz]
        exact Nat.zero_le 1
      · intro h
        cases h
      · intro h
        cases h
  | deployDone ok =>
    show sessionWF (finishDeploy s ok)
    unfold finishDeploy
    by_cases hd : s.phase = SessionPhase.deploying
    · rw [if_pos hd]
      have hz : s.attempts.countP (fun a => a.resolved.isNone) = 0 :=
        hdeploying hd
      cases ok with
      | true =>
        show sessionWF ⟨SessionPhase.deployed, s.attempts⟩
        refine ⟨?_, ?_, ?_⟩
        · rw [inFlightCount_mk, hz]
          exact Nat.zero_le 1
        · intro h
          cases h
        · intro _
          rw [inFlightCount_mk, hz]
      | false =>
        show sessionWF ⟨SessionPhase.failed [], s.attempts⟩
        refine ⟨?_, ?_, ?_⟩
        · rw [inFlightCount_mk, hz]
          exact Nat.zero_le 1
        · intro h
          cases h
        · intro h
          cases h
    · rw [if_neg hd]
      exact ⟨hle, hdeploying, hdeployed⟩

theorem applyOps_wf (ops : List SessionOp) :
    ∀ s, sessionWF s → sessionWF (applyOps s ops) := by
  induction ops with
  | nil => intro s hs; exact hs
  | cons op ops ih =>
    intro s hs
    exact ih (applyOp s op) (applyOp_wf s op hs)

/-- The chat state of `LiveCreation.tsx` relevant to sending: the project
id from the URL, the sending flag, and the modification requests actually
issued to the backend. -/
structure ChatState where
  projectId : Option Nat
  isSending : Bool
  requests : List String
deriving DecidableEq

/-- The guard of `handleSendMessage` in `LiveCreation.tsx`: while a send is
pending (or the message is blank, or the project id is missing) nothing is
sent; otherwise the sending flag is set and the request goes out. -/
def handleSendMessage (cs : ChatState) (userMessage : String) : ChatState :=
  if (userMessage.trim == "") || cs.isSending || cs.projectId.isNone then cs
  else ⟨cs.projectId, true, cs.requests ++ [userMessage]⟩

/-- Claim C4: a modify request while the session is generating or deploying
returns `busy` and leaves the session — in particular its attempt list —
unchanged; along any sequence of session operations at most one attempt is
ever in flight; and the frontend guard sends nothing while a send is
pending. -/
theorem modify_busy_at_most_one_in_flight (s : Session) (text : String)
    (ops : List SessionOp) (cs : ChatState) (msg : String) :
    ((s.phase = SessionPhase.generating ∨ s.phase = SessionPhase.deploying) →
      (modifySession s text).2 = ModifyResult.busy ∧
      (modifySession s text).1 = s) ∧
    inFlightCount (applyOps startSession ops) ≤ 1 ∧
    (cs.isSending = true → handleSendMessage cs msg = cs) := by
  refine ⟨?_, ?_, ?_⟩
  · intro hb
    unfold modifySession
    rw [if_pos hb]
    exact ⟨rfl, rfl⟩
  · have hwf : sessionWF startSession := by
      refine ⟨by simp [startSession, inFlightCount], ?_, ?_⟩ <;>
        simp [startSession]
    exact (applyOps_wf ops startSession hwf).1
  · intro hsend
    unfold handleSendMessage
    rw [if_pos (by simp [hsend])]

/-- Witness for C4: a session in generation rejects a modify with `busy`
and keeps its single in-flight attempt; the pending frontend sends
nothing. -/
theorem modify_busy_at_most_one_in_flight_witness :
    (modifySession startSession "add dark mode").2 = ModifyResult.busy ∧
    (modifySession startSession "add dark mode").1 = startSession ∧
    inFlightCount (applyOps startSession [SessionOp.modifyReq "x"]) ≤ 1 ∧
    handleSendMessage ⟨some 7, true, []⟩ "hi" = ⟨some 7, true, []⟩ := by
  have h := modify_busy_at_most_one_in_flight startSession "add dark mode"
    [SessionOp.modifyReq "x"] ⟨some 7, true, []⟩ "hi"
  exact ⟨(h.1 (Or.inl rfl)).1, (h.1 (Or.inl rfl)).2, h.2.1, h.2.2 rfl⟩

/-- The content-handling strategies of §4.1. -/
inductive ContentStrategy
  | static
  | persisted
  | liveExternal
deriving DecidableEq

/-- Keywords marking user-generated content (the V5 content table: posts,
comments, todos, forms). -/
def userContentKeywords : List String :=
  ["todo", "post", "comment", "form", "account", "profile"]

/-- Keywords marking live external data (the V5 content table: stocks,
weather, crypto, live feeds). -/
def liveDataKeywords : List String :=
  ["stock", "weather", "crypto", "live price", "feed"]

/-- Modelled from the spec: the Content Classifier of §4.1 — the backend
classifier body is not in the repository. A pure function of the request
text: live-data keywords select `liveExternal`, user-content keywords
select `persisted`, and everything else — the ambiguous case — defaults to
`static`. -/
def classifyContent (text : String) : ContentStrategy :=
  if liveDataKeywords.any (fun k => strIncludes text k) then
    ContentStrategy.liveExternal
  else if userContentKeywords.any (fun k => strIncludes text k) then
    ContentStrategy.persisted
  else ContentStrategy.static

/-- The prompt table of `AIGenerator._get_system_prompt`, keyed by app
type, with the prompt bodies abbreviated to their constant names. -/
def promptTable : List (String × String) :=
  [("website", "WEBSITE_PROMPT"), ("webapp", "WEBAPP_PROMPT"),
   ("tool", "TOOL_PROMPT"), ("dashboard", "DASHBOARD_PROMPT"),
   ("game", "GAME_PROMPT"), ("form", "FORM_PROMPT")]

/-- `AIGenerator._get_system_prompt`: look the app type up in the prompt
table and default to the generic prompt. -/
def getSystemPrompt (app_type : String) : String :=
  (promptTable.lookup app_type).getD "GENERIC_PROMPT"

/-- Claim C9: the classifier is total with range static, persisted or
liveExternal; ambiguous input (no keyword matches) yields `static` rather
than an error, and an unknown app type still yields the generic system
prompt, so classification never blocks the pipeline. -/
theorem classifier_total_defaults (text app_type : String) :
    (classifyContent text = ContentStrategy.static ∨
     classifyContent text = ContentStrategy.persisted ∨
     classifyContent text = ContentStrategy.liveExternal) ∧
    ((∀ k ∈ liveDataKeywords, strIncludes text k = false) →
     (∀ k ∈ userContentKeywords, strIncludes text k = false) →
      classifyContent text = ContentStrategy.static) ∧
    ((promptTable.lookup app_type).isNone →
      getSystemPrompt app_type = "GENERIC_PROMPT") := by
  refine ⟨?_, ?_, ?_⟩
  · unfold classifyContent
    by_cases h1 : liveDataKeywords.any (fun k => strIncludes text k) = true
    · rw [if_pos h1]
      exact Or.inr (Or.inr rfl)
    · rw [if_neg (by simp [h1])]
      by_cases h2 : userContentKeywords.any (fun k => strIncludes text k) = true
      · rw [if_pos h2]
        exact Or.inr (Or.inl rfl)
      · rw [if_neg (by simp [h2])]
        exact Or.inl rfl
  · intro hl hu
    unfold classifyContent
    have hl2 : liveDataKeywords.any (fun k => strIncludes text k) = false := by
      rw [Bool.eq_false_iff]
      intro hc
      rcases List.any_eq_true.mp hc with ⟨k, hk, hki⟩
      rw [hl k hk] at hki
      cases hki
    have hu2 : userContentKeywords.any (fun k => strIncludes text k) = false := by
      rw [Bool.eq_false_iff]
      intro hc
      rcases List.any_eq_true.mp hc with ⟨k, hk, hki⟩
      rw [hu k hk] at hki
      cases hki
    rw [if_neg (by simp [hl2]), if_neg (by simp [hu2])]
  · intro hnone
    unfold getSystemPrompt
    rcases h : promptTable.lookup app_type with _ | v
    · rfl
    · rw [h] at hnone
      simp at hnone

/-- Witness for C9: an ambiguous request classifies as static and an
unknown app type falls back to the generic prompt. -/
theorem classifier_total_defaults_witness :
    classifyContent "simple hello page" = ContentStrategy.static ∧
    getSystemPrompt "blog" = "GENERIC_PROMPT" := by
  have h := classifier_total_defaults "simple hello page" "blog"
  exact ⟨h.2.1 (by decide) (by decide), h.2.2 (by decide)⟩

end Faibric
